import Mathlib

/-
  Verification development for the interactive selection engine of the
  mac-cleaner CLI: the directory-grouping pipeline (src/utils/grouping.ts)
  and the selection-state machine of the file picker prompt
  (src/pickers/file-picker.ts, embedded alongside its test file).

  Conventions of the shallow embedding:
  * JS strings are Lean String, byte sizes are Nat.
  * JS Set objects are Finset String / Finset CategoryId (claims only ever
    observe membership and set equality).
  * JS Map objects are Lean functions into Option (a map distinguishes an
    absent key from a key bound to an empty set, so the codomain is
    Option (Finset String)).
  * JS Record objects (string-keyed, insertion ordered) are association
    lists; spreading a record with one updated key keeps the position of an
    existing key and appends a new one, which recSet below mirrors.
  * Array.prototype.sort with a comparator is, per the ECMAScript spec, a
    stable sort; it is embedded as List.mergeSort with the matching
    boolean order.
  * Presentation-only strings (displayName and name on display rows,
    produced by truncateDirectoryPath and basename from src/utils/paths.ts)
    are consumed by no claim and are omitted from the row embedding, as are
    the duplicated fields directoryPath and path whose values equal
    directoryKey and item.path respectively.
-/

/-- A discovered filesystem entry eligible for cleanup (src/types.ts,
CleanableItem). -/
structure CleanableItem where
  path : String
  name : String
  size : Nat
  isDirectory : Bool
deriving Repr, DecidableEq

/-- Category identifiers; the picker logic treats them as opaque strings. -/
abbrev CategoryId := String

/-- A scan result pairing a category with its discovered items
(src/types.ts, ScanResult).  Of the Category record the picker logic reads
only the id; the remaining fields (name, group, description, safetyLevel)
and totalSize are presentational and are omitted here. -/
structure ScanResult where
  categoryId : CategoryId
  items : List CleanableItem
deriving Repr, DecidableEq

/-- Embedding of Node.js posix path.dirname (used by groupByDirectory):
empty input yields ".", otherwise scan from the end, skip trailing
slashes, skip the basename, and cut at the slash found there; with no such
slash the result is "/" for rooted paths and "." otherwise, and a cut at
index 1 of a rooted path yields "//". -/
def dirname (p : String) : String :=
  let cs := p.data
  if cs.length = 0 then "."
  else
    let hasRoot := cs.head? = some '/'
    let r := cs.reverse.take (cs.length - 1)
    let afterTrailing := r.dropWhile (fun c => c = '/')
    let rest := afterTrailing.dropWhile (fun c => c ≠ '/')
    if rest.isEmpty then (if hasRoot then "/" else ".")
    else
      let e := cs.length - 1 - (r.length - rest.length)
      if hasRoot ∧ e = 1 then "//"
      else ⟨cs.take e⟩

/-- Insertion step of a stable descending sort on a numeric key: the new
element x (which occurs earlier in the input than everything already
sorted) moves past exactly the elements with a strictly larger key, so
equal keys keep encounter order. -/
def insertKeyDesc (key : α → Nat) (x : α) : List α → List α
  | [] => [x]
  | y :: ys => if key x < key y then y :: insertKeyDesc key x ys else x :: y :: ys

/-- Stable sort by a numeric key, largest first.  Array.prototype.sort
with a comparator of the shape (a, b) =&gt; key(b) - key(a) is required by
the ECMAScript spec to be a stable sort for that order, and a stable sort
of a list over a total preorder is extensionally unique, so this
structurally recursive insertion sort is the sort the source performs. -/
def sortKeyDesc (key : α → Nat) : List α → List α
  | [] => []
  | x :: xs => insertKeyDesc key x (sortKeyDesc key xs)

/-- Stable sort of items by size, largest first (the call
files.sort((a, b) =&gt; b.size - a.size) in groupByDirectory). -/
def sortBySizeDesc (l : List CleanableItem) : List CleanableItem :=
  sortKeyDesc (fun f => f.size) l

/-- A group of files within the same directory (grouping.ts,
DirectoryGroup). -/
structure DirectoryGroup where
  path : String
  files : List CleanableItem
  largestFileSize : Nat
deriving Repr, DecidableEq

/-- One step of filling the dirPath-to-files Map inside groupByDirectory:
push the file onto the entry for its directory, creating the entry at the
end when absent (JS Map preserves insertion order). -/
def groupInsert (dir : String) (f : CleanableItem) :
    List (String × List CleanableItem) → List (String × List CleanableItem)
  | [] => [(dir, [f])]
  | (d, fs) :: rest =>
    if d = dir then (d, fs ++ [f]) :: rest
    else (d, fs) :: groupInsert dir f rest

/-- The Map-building loop of groupByDirectory: group files by dirname into
an insertion-ordered association of directory to files. -/
def buildGroups (files : List CleanableItem) : List (String × List CleanableItem) :=
  files.foldl (fun acc f => groupInsert (dirname f.path) f acc) []

/-- The body of the .map inside groupByDirectory: sort one directory's
files by size descending and record the largest member's size (0 for an
empty group, mirroring sortedFiles[0]?.size ?? 0). -/
def mkGroup (e : String × List CleanableItem) : DirectoryGroup :=
  { path := e.1
    files := sortBySizeDesc e.2
    largestFileSize := (((sortBySizeDesc e.2).head?).map (fun f => f.size)).getD 0 }

/-- grouping.ts groupByDirectory: group files by parent directory, sort
each directory's files by size descending, and stable-sort the groups by
their largest member's size descending. -/
def groupByDirectory (files : List CleanableItem) : List DirectoryGroup :=
  sortKeyDesc (fun g => g.largestFileSize) ((buildGroups files).map mkGroup)

/-- A directory group with visibility limits applied (grouping.ts,
LimitedGroup). -/
structure LimitedGroup where
  group : DirectoryGroup
  visibleCount : Nat
  hasMore : Bool
deriving Repr, DecidableEq

/-- Lookup in an embedded JS Map / Record keyed by strings. -/
def limitsGet (limits : List (String × Nat)) (k : String) : Option Nat :=
  (limits.find? (fun e => e.1 == k)).map (fun e => e.2)

/-- Record update by spreading, as in the picker's
newLimits = braces of ...limits, [key]: v — an existing key keeps its
position, a new key is appended. -/
def limitsSet (k : String) (v : Nat) : List (String × Nat) → List (String × Nat)
  | [] => [(k, v)]
  | (k1, v1) :: rest =>
    if k1 = k then (k, v) :: rest
    else (k1, v1) :: limitsSet k v rest

/-- grouping.ts applyExpandLimits: per directory, show the first limit
files (the per-directory override when present, else the default) and
remember whether more are hidden. -/
def applyExpandLimits (groups : List DirectoryGroup) (limits : List (String × Nat))
    (defaultLimit : Nat) : List LimitedGroup :=
  groups.map fun g =>
    let limit := (limitsGet limits g.path).getD defaultLimit
    { group := g
      visibleCount := min limit g.files.length
      hasMore := decide (g.files.length > limit) }

/-- The three display row variants (checkbox.ts GroupedFileDisplay type
field). -/
inductive RowType where
  | directoryHeader
  | file
  | expandHint
deriving Repr, DecidableEq

/-- One display row (checkbox.ts GroupedFileDisplay).  Presentation-only
fields are omitted (see the header comment); directoryKey, selectable,
item, size, hiddenCount and totalFilesInDir are the fields the picker
logic reads. -/
structure GroupedFileDisplay where
  type : RowType
  directoryKey : String
  selectable : Bool
  item : Option CleanableItem
  size : Option Nat
  hiddenCount : Option Nat
  totalFilesInDir : Nat
deriving Repr, DecidableEq

/-- The non-selectable directory header row emitted for a group. -/
def headerRow (g : DirectoryGroup) : GroupedFileDisplay :=
  { type := .directoryHeader
    directoryKey := g.path
    selectable := false
    item := none
    size := none
    hiddenCount := none
    totalFilesInDir := g.files.length }

/-- The selectable row emitted for one visible file of a group. -/
def fileRow (g : DirectoryGroup) (f : CleanableItem) : GroupedFileDisplay :=
  { type := .file
    directoryKey := g.path
    selectable := true
    item := some f
    size := some f.size
    hiddenCount := none
    totalFilesInDir := g.files.length }

/-- The non-selectable expand-hint row emitted when files are hidden. -/
def hintRow (g : DirectoryGroup) (visibleCount : Nat) : GroupedFileDisplay :=
  { type := .expandHint
    directoryKey := g.path
    selectable := false
    item := none
    size := none
    hiddenCount := some (g.files.length - visibleCount)
    totalFilesInDir := g.files.length }

/-- The display rows contributed by one limited group: a non-selectable
directory header, one selectable file row per visible file, and a
non-selectable expand hint when files are hidden (grouping.ts
formatAsDisplayItems loop body). -/
def groupBlock (lg : LimitedGroup) : List GroupedFileDisplay :=
  (headerRow lg.group :: (lg.group.files.take lg.visibleCount).map (fileRow lg.group)) ++
  (if lg.hasMore then [hintRow lg.group lg.visibleCount] else [])

/-- grouping.ts formatAsDisplayItems: flatten the limited groups into the
display row list. -/
def formatAsDisplayItems (limitedGroups : List LimitedGroup) : List GroupedFileDisplay :=
  (limitedGroups.map groupBlock).flatten

/-- grouping.ts groupFilesByDirectory: the full pipeline from items and
per-directory limits to display rows (the absolutePaths flag only selects
the presentation of the omitted display strings). -/
def groupFilesByDirectory (files : List CleanableItem) (dirExpandLimits : List (String × Nat))
    (defaultLimit : Nat) : List GroupedFileDisplay :=
  formatAsDisplayItems (applyExpandLimits (groupByDirectory files) dirExpandLimits defaultLimit)

example :
    groupFilesByDirectory
      [⟨"/d/a.txt", "a.txt", 10, false⟩, ⟨"/d/b.txt", "b.txt", 30, false⟩,
       ⟨"/e/c.txt", "c.txt", 20, false⟩] [] 5 =
    [⟨.directoryHeader, "/d", false, none, none, none, 2⟩,
     ⟨.file, "/d", true, some ⟨"/d/b.txt", "b.txt", 30, false⟩, some 30, none, 2⟩,
     ⟨.file, "/d", true, some ⟨"/d/a.txt", "a.txt", 10, false⟩, some 10, none, 2⟩,
     ⟨.directoryHeader, "/e", false, none, none, none, 1⟩,
     ⟨.file, "/e", true, some ⟨"/e/c.txt", "c.txt", 20, false⟩, some 20, none, 1⟩] := by
  decide

/-
  Selection state and per-category UI state (file-picker.ts).
-/

/-- The two coupled selection structures owned by the picker
(file-picker.ts useState calls for selectedCategories and
selectedFilesByCategory).  The Map is a function into Option so that an
absent entry is distinguished from an entry holding an empty set. -/
structure SelectionState where
  selectedCategories : Finset CategoryId
  selectedFilesByCategory : CategoryId → Option (Finset String)

/-- The JS read pattern selectedFilesByCategory.get(id) or a fresh empty
Set (a present entry is returned even when empty, since a Set object is
always truthy). -/
def getFiles (m : CategoryId → Option (Finset String)) (k : CategoryId) : Finset String :=
  (m k).getD ∅

/-- Map.set on the embedded selectedFilesByCategory. -/
def mapSet (m : CategoryId → Option (Finset String)) (k : CategoryId)
    (v : Finset String) : CategoryId → Option (Finset String) :=
  fun k1 => if k1 = k then some v else m k1

/-- The Set of item paths of a scan result, as in
new Set(categoryResult.items.map((item) =&gt; item.path)). -/
def itemPathsSet (r : ScanResult) : Finset String :=
  (r.items.map (fun it => it.path)).toFinset

/-- The selection state at picker start: both structures empty. -/
def initialSelection : SelectionState :=
  { selectedCategories := ∅, selectedFilesByCategory := fun _ => none }

/-- Per-category navigation and expansion state (file-picker.ts
FilePickerState). -/
structure FilePickerState where
  visible : Bool
  active : Bool
  fileCaret : Nat
  dirExpandLimits : List (String × Nat)
deriving Repr, DecidableEq

/-- file-picker.ts DEFAULT_PICKER_STATE. -/
def DEFAULT_PICKER_STATE : FilePickerState :=
  { visible := false, active := false, fileCaret := 0, dirExpandLimits := [] }

/-- The string-keyed record of per-category UI states (file-picker.ts
FilePickerStatesStore), insertion ordered like a JS object. -/
abbrev FilePickerStatesStore := List (CategoryId × FilePickerState)

/-- file-picker.ts getPickerState: the recorded state, or the default when
none exists (the JS spreads only copy; they change no field values). -/
def getPickerState (store : FilePickerStatesStore) (k : CategoryId) : FilePickerState :=
  ((store.find? (fun e => e.1 == k)).map (fun e => e.2)).getD DEFAULT_PICKER_STATE

/-- Record update with one key bound to a new value, as performed by
setCategoryFilePickerStates(braces of ...categoryFilePickerStates,
[key]: nextState): an existing key keeps its position, a new key is
appended. -/
def storeSet (k : CategoryId) (v : FilePickerState) :
    FilePickerStatesStore → FilePickerStatesStore
  | [] => [(k, v)]
  | (k1, v1) :: rest =>
    if k1 = k then (k, v) :: rest
    else (k1, v1) :: storeSet k v rest

/-- file-picker.ts updatePickerState: merge an update into the current
state of one category (upd is the field update the call site passes). -/
def updatePickerState (store : FilePickerStatesStore) (k : CategoryId)
    (upd : FilePickerState → FilePickerState) : FilePickerStatesStore :=
  storeSet k (upd (getPickerState store k)) store

/-- file-picker.ts getActiveCategory: the first category whose recorded
state is active, in insertion order. -/
def getActiveCategory (store : FilePickerStatesStore) : Option CategoryId :=
  (store.find? (fun e => e.2.active)).map (fun e => e.1)

/-- file-picker.ts constant DIR_VIS_CHILD_LIMIT. -/
def DIR_VIS_CHILD_LIMIT : Nat := 5

/-- file-picker.ts constant EXPAND_INCREMENT. -/
def EXPAND_INCREMENT : Nat := 10

/-
  Key handlers.  Each definition embeds one branch of the useKeypress
  handler in file-picker.ts; the pane guards of the dispatch (which pane
  is active, whether an active category exists) sit around these branches
  at the call site and select which of them runs.
-/

/-- Categories pane, space (file-picker.ts lines 1048 to 1081 of the
bundled source): toggle the caret category; deselecting clears its file
selections and hides its picker, selecting auto-selects all its item
paths and shows its picker.  currentCategory is
results[categoryCaret].category.id at the call site. -/
def spaceCategoriesKey (results : List ScanResult) (fileSel : Finset CategoryId)
    (currentCategory : CategoryId) (s : SelectionState)
    (store : FilePickerStatesStore) : SelectionState × FilePickerStatesStore :=
  if currentCategory ∈ s.selectedCategories then
    ({ selectedCategories := s.selectedCategories.erase currentCategory
       selectedFilesByCategory :=
         if currentCategory ∈ fileSel then
           mapSet s.selectedFilesByCategory currentCategory ∅
         else s.selectedFilesByCategory },
     if currentCategory ∈ fileSel then
       updatePickerState store currentCategory (fun st => { st with visible := false })
     else store)
  else
    ({ selectedCategories := insert currentCategory s.selectedCategories
       selectedFilesByCategory :=
         if currentCategory ∈ fileSel then
           match results.find? (fun r => r.categoryId == currentCategory) with
           | some categoryResult =>
             mapSet s.selectedFilesByCategory currentCategory (itemPathsSet categoryResult)
           | none => s.selectedFilesByCategory
         else s.selectedFilesByCategory },
     if currentCategory ∈ fileSel then
       updatePickerState store currentCategory (fun st => { st with visible := true })
     else store)

/-- Categories pane, key a (lines 1082 to 1110): if every category is
selected, clear both selection structures; otherwise select every
category and auto-select all item paths of every category supporting file
selection.  The setCategoryFilePickerStates bookkeeping of this branch
touches only visibility flags and is referenced by no claim, so the
embedding returns the selection state. -/
def aCategoriesKey (results : List ScanResult) (fileSel : Finset CategoryId)
    (s : SelectionState) : SelectionState :=
  let allCategories := results.map (fun r => r.categoryId)
  if allCategories.all (fun id => decide (id ∈ s.selectedCategories)) then
    { selectedCategories := ∅, selectedFilesByCategory := fun _ => none }
  else
    { selectedCategories := allCategories.toFinset
      selectedFilesByCategory :=
        results.foldl
          (fun m r =>
            if r.categoryId ∈ fileSel then mapSet m r.categoryId (itemPathsSet r) else m)
          (fun _ => none) }

/-- Files pane, space (lines 1215 to 1237): toggle the file under the
caret when that row is selectable; deselecting the last selected path
removes the category, selecting a path auto-selects the category. -/
def spaceFilesKey (rows : List GroupedFileDisplay) (fileCaret : Nat)
    (activeCategory : CategoryId) (s : SelectionState) : SelectionState :=
  match rows[fileCaret]? with
  | none => s
  | some currentFile =>
    if currentFile.selectable then
      match currentFile.item with
      | none => s
      | some it =>
        let currentFiles := getFiles s.selectedFilesByCategory activeCategory
        if it.path ∈ currentFiles then
          let newSelected := currentFiles.erase it.path
          { selectedCategories :=
              if newSelected = ∅ then s.selectedCategories.erase activeCategory
              else s.selectedCategories
            selectedFilesByCategory :=
              mapSet s.selectedFilesByCategory activeCategory newSelected }
        else
          { selectedCategories := insert activeCategory s.selectedCategories
            selectedFilesByCategory :=
              mapSet s.selectedFilesByCategory activeCategory
                (insert it.path currentFiles) }
    else s

/-- Files pane, key a (lines 1238 to 1271): select or deselect all of the
active category's underlying item paths (categoryResult.items, not the
visible rows); an emptied file set removes the category, otherwise the
category is selected. -/
def aFilesKey (results : List ScanResult) (activeCategory : CategoryId)
    (s : SelectionState) : SelectionState :=
  match results.find? (fun r => r.categoryId == activeCategory) with
  | none => s
  | some categoryResult =>
    let currentFiles := getFiles s.selectedFilesByCategory activeCategory
    let allFiles := categoryResult.items.map (fun it => it.path)
    if allFiles.all (fun p => decide (p ∈ currentFiles)) then
      let newSelected := allFiles.foldl (fun acc p => acc.erase p) currentFiles
      { selectedCategories :=
          if newSelected = ∅ then s.selectedCategories.erase activeCategory
          else s.selectedCategories
        selectedFilesByCategory :=
          mapSet s.selectedFilesByCategory activeCategory newSelected }
    else
      { selectedCategories := insert activeCategory s.selectedCategories
        selectedFilesByCategory :=
          mapSet s.selectedFilesByCategory activeCategory
            (allFiles.foldl (fun acc p => insert p acc) currentFiles) }

/-- Files pane, key i (lines 1310 to 1344): flip membership of every
underlying item path; the category is selected when any path became
selected, and removed when none remain selected. -/
def iFilesKey (results : List ScanResult) (activeCategory : CategoryId)
    (s : SelectionState) : SelectionState :=
  match results.find? (fun r => r.categoryId == activeCategory) with
  | none => s
  | some categoryResult =>
    let currentFiles := getFiles s.selectedFilesByCategory activeCategory
    let allFiles := categoryResult.items.map (fun it => it.path)
    let step := allFiles.foldl
      (fun (acc : Finset String × Bool) p =>
        if p ∈ acc.1 then (acc.1.erase p, acc.2) else (insert p acc.1, true))
      (currentFiles, false)
    { selectedCategories :=
        if step.2 then insert activeCategory s.selectedCategories
        else if step.1 = ∅ then s.selectedCategories.erase activeCategory
        else s.selectedCategories
      selectedFilesByCategory :=
        mapSet s.selectedFilesByCategory activeCategory step.1 }

/-- Files pane, key d (lines 1272 to 1309): with the caret on a selectable
row, collect the paths of the selectable rows sharing its directoryKey
from the visible row list and toggle exactly those; selectedCategories is
left untouched. -/
def dFilesKey (rows : List GroupedFileDisplay) (fileCaret : Nat)
    (activeCategory : CategoryId) (s : SelectionState) : SelectionState :=
  match rows[fileCaret]? with
  | none => s
  | some currentFile =>
    if currentFile.selectable then
      let currentFiles := getFiles s.selectedFilesByCategory activeCategory
      let dirFiles :=
        (rows.filter fun f =>
          f.selectable && f.directoryKey == currentFile.directoryKey && f.item.isSome
        ).filterMap (fun f => f.item.map (fun it => it.path))
      let newSelected :=
        if dirFiles.all (fun p => decide (p ∈ currentFiles)) then
          dirFiles.foldl (fun acc p => acc.erase p) currentFiles
        else
          dirFiles.foldl (fun acc p => insert p acc) currentFiles
      { selectedCategories := s.selectedCategories
        selectedFilesByCategory :=
          mapSet s.selectedFilesByCategory activeCategory newSelected }
    else s

/-- Structural core of the forward scan over non-selectable rows; the
fuel argument only bounds the iteration count so that the function
computes by structural recursion. -/
def skipDownAux (rows : List GroupedFileDisplay) : Nat → Nat → Nat
  | 0, i => i
  | fuel + 1, i =>
    if h : i < rows.length then
      if (rows.get ⟨i, h⟩).selectable then i else skipDownAux rows fuel (i + 1)
    else i

/-- Forward scan over non-selectable rows: the loop
while (i &lt; rows.length and not rows[i].selectable) i = i + 1, shared by
the down-arrow handler and the caret derivation on pane entry. -/
def skipDown (rows : List GroupedFileDisplay) (i : Nat) : Nat :=
  skipDownAux rows (rows.length - i) i

/-- Files pane, key m (lines 1371 to 1383): raise the caret row's
directory visibility limit by EXPAND_INCREMENT above its current
effective limit.  The caret row always carries a non-empty directoryKey,
embedded as the truthiness guard on currentFile?.directoryKey. -/
def mFilesKey (rows : List GroupedFileDisplay) (fileCaret : Nat)
    (activeCategory : CategoryId) (store : FilePickerStatesStore) :
    FilePickerStatesStore :=
  match rows[fileCaret]? with
  | none => store
  | some currentFile =>
    if currentFile.directoryKey = "" then store
    else
      let pickerState := getPickerState store activeCategory
      let currentLimit :=
        (limitsGet pickerState.dirExpandLimits currentFile.directoryKey).getD
          DIR_VIS_CHILD_LIMIT
      updatePickerState store activeCategory fun st =>
        { st with
          dirExpandLimits :=
            limitsSet currentFile.directoryKey (currentLimit + EXPAND_INCREMENT)
              pickerState.dirExpandLimits }

/-- Files pane, key h (lines 1384 to 1393): reset the caret row's
directory visibility limit to DIR_VIS_CHILD_LIMIT.  The handler rewrites
only dirExpandLimits; in particular fileCaret is left as it was. -/
def hFilesKey (rows : List GroupedFileDisplay) (fileCaret : Nat)
    (activeCategory : CategoryId) (store : FilePickerStatesStore) :
    FilePickerStatesStore :=
  match rows[fileCaret]? with
  | none => store
  | some currentFile =>
    if currentFile.directoryKey = "" then store
    else
      let pickerState := getPickerState store activeCategory
      updatePickerState store activeCategory fun st =>
        { st with
          dirExpandLimits :=
            limitsSet currentFile.directoryKey DIR_VIS_CHILD_LIMIT
              pickerState.dirExpandLimits }

/-- Categories pane, right arrow (lines 1140 to 1186): enter the files
pane for the caret category when it supports file selection and has
display rows.  The remembered fileCaret is kept when it indexes a
selectable row, otherwise the caret is re-derived by scanning from row 0
to the first selectable row (falling back to 0 when the scan runs off the
end); every other category's active flag is cleared, and the entered
category becomes active and visible.  Returns the new store paired with
whether the files pane was entered. -/
def rightCategoriesKey (fileSel : Finset CategoryId) (currentCategory : CategoryId)
    (rows : List GroupedFileDisplay) (store : FilePickerStatesStore) :
    FilePickerStatesStore × Bool :=
  if currentCategory ∈ fileSel ∧ 0 < rows.length then
    let base := getPickerState store currentCategory
    let remembered := base.fileCaret
    let initialCaret :=
      if h : remembered < rows.length then
        if (rows.get ⟨remembered, h⟩).selectable then remembered
        else skipDown rows 0
      else skipDown rows 0
    let finalCaret := if initialCaret < rows.length then initialCaret else 0
    let deactivated := store.map (fun e => (e.1, { e.2 with active := false }))
    (storeSet currentCategory
      { base with active := true, visible := true, fileCaret := finalCaret }
      deactivated, true)
  else (store, false)

/-- JS array indexing results[i] as the prompt body performs it on every
render and keypress: undefined outside the range, including negative
indices (the category caret is handled as a plain JS number). -/
def jsIndex (l : List ScanResult) (i : Int) : Option ScanResult :=
  if i < 0 then none else l[i.toNat]?

/-- Categories pane, up arrow (line 1045): Math.max(0, categoryCaret - 1). -/
def upCategoriesKey (categoryCaret : Int) : Int :=
  max 0 (categoryCaret - 1)

/-- Categories pane, down arrow (line 1047):
Math.min(results.length - 1, categoryCaret + 1). -/
def downCategoriesKey (resultsLength : Nat) (categoryCaret : Int) : Int :=
  min ((resultsLength : Int) - 1) (categoryCaret + 1)

/-
  Concrete fixtures used by witnesses and counterexamples.
-/

/-- Six files in one directory; with the default visibility limit of 5 the
smallest file is hidden behind the expand hint. -/
def itemsSix : List CleanableItem :=
  [⟨"/d/f1.txt", "f1.txt", 600, false⟩, ⟨"/d/f2.txt", "f2.txt", 500, false⟩,
   ⟨"/d/f3.txt", "f3.txt", 400, false⟩, ⟨"/d/f4.txt", "f4.txt", 300, false⟩,
   ⟨"/d/f5.txt", "f5.txt", 200, false⟩, ⟨"/d/f6.txt", "f6.txt", 100, false⟩]

/-- The display rows for itemsSix with no per-directory overrides. -/
def rowsSix : List GroupedFileDisplay := groupFilesByDirectory itemsSix [] 5

/-- Seven files in one directory, for the expand and collapse session. -/
def itemsSeven : List CleanableItem :=
  [⟨"/d/f1.txt", "f1.txt", 700, false⟩, ⟨"/d/f2.txt", "f2.txt", 600, false⟩,
   ⟨"/d/f3.txt", "f3.txt", 500, false⟩, ⟨"/d/f4.txt", "f4.txt", 400, false⟩,
   ⟨"/d/f5.txt", "f5.txt", 300, false⟩, ⟨"/d/f6.txt", "f6.txt", 200, false⟩,
   ⟨"/d/f7.txt", "f7.txt", 100, false⟩]

/-- Two files in one directory, for the select-all round-trip scenarios. -/
def itemsTwo : List CleanableItem :=
  [⟨"/t/a.txt", "a.txt", 200, false⟩, ⟨"/t/b.txt", "b.txt", 100, false⟩]

/-- A single scan result holding itemsTwo. -/
def resultsTwo : List ScanResult := [⟨"large-files", itemsTwo⟩]

/-- The display rows for itemsTwo with no per-directory overrides. -/
def rowsTwo : List GroupedFileDisplay := groupFilesByDirectory itemsTwo [] 5

/-- Two equal-sized files in one directory, exercising tie-breaking. -/
def itemsTie : List CleanableItem :=
  [⟨"/d/a.txt", "a.txt", 5, false⟩, ⟨"/d/b.txt", "b.txt", 5, false⟩]

/-- Semantic equality of selection states: the same selected categories
and, for every category, the same selected-file membership. -/
def SelEquiv (s t : SelectionState) : Prop :=
  s.selectedCategories = t.selectedCategories ∧
  ∀ k, getFiles s.selectedFilesByCategory k = getFiles t.selectedFilesByCategory k

/-- Files pane, down arrow, with its store update (lines 1204 to 1214):
the caret advances to the next selectable row of the active category's
current display rows, when one exists in range. -/
def downFilesStore (rows : List GroupedFileDisplay) (activeCategory : CategoryId)
    (store : FilePickerStatesStore) : FilePickerStatesStore :=
  let fileCaret := (getPickerState store activeCategory).fileCaret
  let newCaret := skipDown rows (fileCaret + 1)
  if newCaret < rows.length then
    updatePickerState store activeCategory (fun st => { st with fileCaret := newCaret })
  else store

/-- The file-selection configuration used by the concrete sessions. -/
def fileSelLarge : Finset CategoryId := {"large-files"}

/-- The collapse session of the C8 analysis, step by step: enter the
files pane over itemsSeven, expand the single directory, walk the caret
down to the last (seventh) file row, then collapse the directory. -/
def storeEnter : FilePickerStatesStore :=
  (rightCategoriesKey fileSelLarge "large-files" (groupFilesByDirectory itemsSeven [] 5) []).1

/-- Store after pressing m on the first file row. -/
def storeExpanded : FilePickerStatesStore :=
  mFilesKey (groupFilesByDirectory itemsSeven [] 5)
    (getPickerState storeEnter "large-files").fileCaret "large-files" storeEnter

/-- The rows once the directory is expanded to 15 visible entries. -/
def rowsExpanded : List GroupedFileDisplay :=
  groupFilesByDirectory itemsSeven
    (getPickerState storeExpanded "large-files").dirExpandLimits 5

/-- Store after six presses of the down arrow on the expanded rows. -/
def storeWalked : FilePickerStatesStore :=
  downFilesStore rowsExpanded "large-files"
    (downFilesStore rowsExpanded "large-files"
      (downFilesStore rowsExpanded "large-files"
        (downFilesStore rowsExpanded "large-files"
          (downFilesStore rowsExpanded "large-files"
            (downFilesStore rowsExpanded "large-files" storeExpanded)))))

/-- Store after pressing h with the caret on the last file row. -/
def storeCollapsed : FilePickerStatesStore :=
  hFilesKey rowsExpanded (getPickerState storeWalked "large-files").fileCaret
    "large-files" storeWalked

/-- The rows after the collapse resets the directory to 5 visible
entries. -/
def rowsCollapsed : List GroupedFileDisplay :=
  groupFilesByDirectory itemsSeven
    (getPickerState storeCollapsed "large-files").dirExpandLimits 5

/-
  Properties of the stable descending sort.
-/

theorem insertKeyDesc_perm (key : α → Nat) (x : α) (l : List α) :
    (insertKeyDesc key x l).Perm (x :: l) := by
  induction l with
  | nil => simp [insertKeyDesc]
  | cons y ys ih =>
    by_cases h : key x < key y
    · simp only [insertKeyDesc, if_pos h]
      exact (List.Perm.cons y ih).trans (List.Perm.swap x y ys)
    · simp [insertKeyDesc, if_neg h]

theorem sortKeyDesc_perm (key : α → Nat) (l : List α) :
    (sortKeyDesc key l).Perm l := by
  induction l with
  | nil => simp [sortKeyDesc]
  | cons x xs ih =>
    exact (insertKeyDesc_perm key x (sortKeyDesc key xs)).trans (List.Perm.cons x ih)

theorem pairwise_insertKeyDesc (key : α → Nat) (x : α) {l : List α}
    (hl : l.Pairwise (fun a b => key b ≤ key a)) :
    (insertKeyDesc key x l).Pairwise (fun a b => key b ≤ key a) := by
  induction l with
  | nil => simp [insertKeyDesc]
  | cons y ys ih =>
    rcases List.pairwise_cons.mp hl with ⟨hy, hys⟩
    by_cases h : key x < key y
    · simp only [insertKeyDesc, if_pos h]
      refine List.pairwise_cons.mpr ⟨?_, ih hys⟩
      intro b hb
      rcases List.mem_cons.mp ((insertKeyDesc_perm key x ys).mem_iff.mp hb) with rfl | hbys
      · exact Nat.le_of_lt h
      · exact hy b hbys
    · simp only [insertKeyDesc, if_neg h]
      push_neg at h
      refine List.pairwise_cons.mpr ⟨?_, hl⟩
      intro b hb
      rcases List.mem_cons.mp hb with rfl | hbys
      · exact h
      · exact le_trans (hy b hbys) h

theorem sortKeyDesc_pairwise (key : α → Nat) (l : List α) :
    (sortKeyDesc key l).Pairwise (fun a b => key b ≤ key a) := by
  induction l with
  | nil => simp [sortKeyDesc]
  | cons x xs ih => exact pairwise_insertKeyDesc key x ih

theorem sublist_insertKeyDesc (key : α → Nat) (x : α) (l : List α) :
    l.Sublist (insertKeyDesc key x l) := by
  induction l with
  | nil => simp [insertKeyDesc]
  | cons y ys ih =>
    by_cases h : key x < key y
    · simpa only [insertKeyDesc, if_pos h] using List.Sublist.cons₂ y ih
    · simpa only [insertKeyDesc, if_neg h] using List.Sublist.cons x (List.Sublist.refl _)

theorem cons_sublist_insertKeyDesc (key : α → Nat) (x : α) {b : α} {l : List α}
    (hb : b ∈ l) (hle : key b ≤ key x) :
    List.Sublist [x, b] (insertKeyDesc key x l) := by
  induction l with
  | nil => cases hb
  | cons y ys ih =>
    by_cases h : key x < key y
    · simp only [insertKeyDesc, if_pos h]
      rcases List.mem_cons.mp hb with rfl | hbys
      · exact absurd (lt_of_le_of_lt hle h) (lt_irrefl _)
      · exact List.Sublist.cons y (ih hbys)
    · simp only [insertKeyDesc, if_neg h]
      exact List.Sublist.cons₂ x (List.singleton_sublist.mpr hb)

theorem sortKeyDesc_stable (key : α → Nat) {a b : α} (hab : key b ≤ key a) :
    ∀ {l : List α}, List.Sublist [a, b] l → List.Sublist [a, b] (sortKeyDesc key l)
  | [], h => by cases h
  | x :: xs, h => by
    cases h with
    | cons _ h1 =>
      exact (sortKeyDesc_stable key hab h1).trans
        (sublist_insertKeyDesc key x (sortKeyDesc key xs))
    | cons₂ _ h1 =>
      exact cons_sublist_insertKeyDesc key a
        ((sortKeyDesc_perm key xs).mem_iff.mpr (List.singleton_sublist.mp h1)) hab

/-
  Characterisation of the grouping Map built by groupByDirectory: the
  entry recorded for a directory is exactly the input filtered to that
  directory, in encounter order, and directories are keys at most once.
-/

/-- Lookup in the directory-to-files association built by buildGroups. -/
def dirLookup (l : List (String × List CleanableItem)) (d : String) :
    Option (List CleanableItem) :=
  (l.find? (fun e => e.1 == d)).map (fun e => e.2)

theorem dirLookup_cons (d1 : String) (fs1 : List CleanableItem)
    (rest : List (String × List CleanableItem)) (d : String) :
    dirLookup ((d1, fs1) :: rest) d =
      if d1 = d then some fs1 else dirLookup rest d := by
  by_cases h : d1 = d
  · simp [dirLookup, List.find?, h]
  · simp [dirLookup, List.find?, beq_eq_false_iff_ne.mpr h, h]

theorem dirLookup_groupInsert_same (d : String) (f : CleanableItem)
    (acc : List (String × List CleanableItem)) :
    dirLookup (groupInsert d f acc) d = some ((dirLookup acc d).getD [] ++ [f]) := by
  induction acc with
  | nil => simp [groupInsert, dirLookup]
  | cons e rest ih =>
    cases e with
    | mk d1 fs1 =>
      by_cases h : d1 = d
      · subst h
        simp [groupInsert, dirLookup_cons]
      · simp only [groupInsert, if_neg h]
        rw [dirLookup_cons, dirLookup_cons, if_neg h, if_neg h, ih]

theorem dirLookup_groupInsert_other (d d1 : String) (hne : d1 ≠ d) (f : CleanableItem)
    (acc : List (String × List CleanableItem)) :
    dirLookup (groupInsert d f acc) d1 = dirLookup acc d1 := by
  induction acc with
  | nil => simp [groupInsert, dirLookup, Ne.symm hne]
  | cons e rest ih =>
    cases e with
    | mk d2 fs2 =>
      by_cases h : d2 = d
      · subst h
        have hins : groupInsert d2 f ((d2, fs2) :: rest) = (d2, fs2 ++ [f]) :: rest := by
          simp [groupInsert]
        rw [hins, dirLookup_cons, dirLookup_cons]
        simp [Ne.symm hne]
      · simp only [groupInsert, if_neg h]
        rw [dirLookup_cons, dirLookup_cons]
        by_cases h1 : d2 = d1
        · simp [h1]
        · simp [h1, ih]

theorem keys_groupInsert (d : String) (f : CleanableItem)
    (acc : List (String × List CleanableItem)) :
    (groupInsert d f acc).map Prod.fst =
      if d ∈ acc.map Prod.fst then acc.map Prod.fst
      else acc.map Prod.fst ++ [d] := by
  induction acc with
  | nil => simp [groupInsert]
  | cons e rest ih =>
    cases e with
    | mk d1 fs1 =>
      by_cases h : d1 = d
      · subst h
        simp [groupInsert]
      · simp only [groupInsert, if_neg h, List.map_cons, ih, List.mem_cons]
        by_cases hm : d ∈ rest.map Prod.fst <;>
          simp [hm, h, Ne.symm h]

theorem nodup_keys_groupInsert (d : String) (f : CleanableItem)
    {acc : List (String × List CleanableItem)}
    (h : (acc.map Prod.fst).Nodup) : ((groupInsert d f acc).map Prod.fst).Nodup := by
  rw [keys_groupInsert]
  by_cases hm : d ∈ acc.map Prod.fst
  · simpa [hm] using h
  · simpa [hm] using List.Nodup.append h (List.nodup_singleton d) (by simpa using hm)

theorem dirLookup_foldl (files : List CleanableItem)
    (acc : List (String × List CleanableItem)) (d : String) :
    (dirLookup
        (files.foldl (fun acc f => groupInsert (dirname f.path) f acc) acc) d).getD [] =
      (dirLookup acc d).getD [] ++ files.filter (fun f => dirname f.path = d) := by
  induction files generalizing acc with
  | nil => simp
  | cons f fs ih =>
    simp only [List.foldl_cons, List.filter_cons]
    by_cases h : dirname f.path = d
    · subst h
      rw [ih, dirLookup_groupInsert_same]
      simp
    · rw [ih, dirLookup_groupInsert_other _ _ (Ne.symm h)]
      simp [h]

theorem nodup_keys_foldl (files : List CleanableItem)
    (acc : List (String × List CleanableItem)) (h : (acc.map Prod.fst).Nodup) :
    ((files.foldl (fun acc f => groupInsert (dirname f.path) f acc) acc).map
      Prod.fst).Nodup := by
  induction files generalizing acc with
  | nil => exact h
  | cons f fs ih => exact ih _ (nodup_keys_groupInsert _ _ h)

theorem dirLookup_of_mem {l : List (String × List CleanableItem)}
    {d : String} {fs : List CleanableItem}
    (hmem : (d, fs) ∈ l) (hnd : (l.map Prod.fst).Nodup) :
    dirLookup l d = some fs := by
  induction l with
  | nil => cases hmem
  | cons e rest ih =>
    cases e with
    | mk d1 fs1 =>
      rcases List.mem_cons.mp hmem with he | hrest
      · cases he
        simp [dirLookup, List.find?]
      · have hd1 : d1 ≠ d := by
          intro h
          subst h
          exact (List.nodup_cons.mp hnd).1 (List.mem_map.mpr ⟨(d1, fs), hrest, rfl⟩)
        simp only [dirLookup, List.find?, beq_eq_false_iff_ne.mpr hd1]
        exact ih hrest (List.nodup_cons.mp hnd).2

theorem buildGroups_keys_nodup (files : List CleanableItem) :
    ((buildGroups files).map Prod.fst).Nodup :=
  nodup_keys_foldl files [] (by simp)

/-- Every entry of the grouping Map holds exactly the input files of its
directory, in encounter order. -/
theorem buildGroups_entry_eq_filter {files : List CleanableItem}
    {d : String} {fs : List CleanableItem} (hmem : (d, fs) ∈ buildGroups files) :
    fs = files.filter (fun f => dirname f.path = d) := by
  have h := dirLookup_of_mem hmem (buildGroups_keys_nodup files)
  have h2 := dirLookup_foldl files [] d
  rw [show buildGroups files =
    files.foldl (fun acc f => groupInsert (dirname f.path) f acc) [] from rfl] at h
  rw [h] at h2
  simpa [dirLookup] using h2

/-- Every group produced by groupByDirectory carries the size-sorted
filter of the input at its directory, with the largest size taken from
the sorted list's head. -/
theorem groupByDirectory_mem_eq {files : List CleanableItem} {g : DirectoryGroup}
    (hg : g ∈ groupByDirectory files) :
    g.files = sortBySizeDesc (files.filter (fun f => dirname f.path = g.path)) := by
  have hmem := (sortKeyDesc_perm (fun h : DirectoryGroup => h.largestFileSize)
    ((buildGroups files).map mkGroup)).mem_iff.mp hg
  rcases List.mem_map.mp hmem with ⟨e, hemem, heq⟩
  cases e with
  | mk d fs =>
    have hfs : fs = files.filter (fun f => dirname f.path = d) :=
      buildGroups_entry_eq_filter hemem
    subst heq
    simp only [mkGroup]
    rw [hfs]

/-- The groups produced by groupByDirectory have pairwise distinct
directory paths. -/
theorem groupByDirectory_paths_nodup (files : List CleanableItem) :
    ((groupByDirectory files).map (fun g => g.path)).Nodup := by
  have hperm : ((groupByDirectory files).map fun g => g.path).Perm
      (((buildGroups files).map mkGroup).map fun g => g.path) :=
    (sortKeyDesc_perm (fun h : DirectoryGroup => h.largestFileSize)
      ((buildGroups files).map mkGroup)).map _
  refine hperm.nodup_iff.mpr ?_
  rw [List.map_map]
  exact buildGroups_keys_nodup files

/-
  Small facts about the embedded Map, Record and Finset operations.
-/

theorem mapSet_same (m : CategoryId → Option (Finset String)) (k : CategoryId)
    (v : Finset String) : mapSet m k v k = some v := by
  simp [mapSet]

theorem mapSet_other (m : CategoryId → Option (Finset String)) {k k1 : CategoryId}
    (v : Finset String) (h : k1 ≠ k) : mapSet m k v k1 = m k1 := by
  simp [mapSet, h]

theorem getFiles_mapSet_same (m : CategoryId → Option (Finset String))
    (k : CategoryId) (v : Finset String) : getFiles (mapSet m k v) k = v := by
  simp [getFiles, mapSet]

theorem foldl_erase_eq_sdiff (ps : List String) (cur : Finset String) :
    ps.foldl (fun acc p => acc.erase p) cur = cur \ ps.toFinset := by
  induction ps generalizing cur with
  | nil => simp
  | cons p ps ih =>
    rw [List.foldl_cons, ih]
    ext x
    simp only [Finset.mem_sdiff, Finset.mem_erase, List.toFinset_cons, Finset.mem_insert,
      List.mem_toFinset]
    tauto

theorem foldl_insert_eq_union (ps : List String) (cur : Finset String) :
    ps.foldl (fun acc p => insert p acc) cur = cur ∪ ps.toFinset := by
  induction ps generalizing cur with
  | nil => simp
  | cons p ps ih =>
    rw [List.foldl_cons, ih]
    ext x
    simp only [Finset.mem_union, Finset.mem_insert, List.toFinset_cons, List.mem_toFinset]
    tauto

theorem all_mem_iff_subset (ps : List String) (cur : Finset String) :
    (ps.all fun p => decide (p ∈ cur)) = true ↔ ps.toFinset ⊆ cur := by
  simp [List.all_eq_true, Finset.subset_iff]

theorem getPickerState_storeSet_same (store : FilePickerStatesStore)
    (k : CategoryId) (v : FilePickerState) :
    getPickerState (storeSet k v store) k = v := by
  induction store with
  | nil => simp [storeSet, getPickerState, List.find?]
  | cons e rest ih =>
    cases e with
    | mk k1 v1 =>
      by_cases h : k1 = k
      · subst h
        simp [storeSet, getPickerState, List.find?]
      · simp only [storeSet, if_neg h]
        simpa [getPickerState, List.find?, beq_eq_false_iff_ne.mpr h] using ih

theorem getPickerState_updatePickerState_same (store : FilePickerStatesStore)
    (k : CategoryId) (f : FilePickerState → FilePickerState) :
    getPickerState (updatePickerState store k f) k = f (getPickerState store k) :=
  getPickerState_storeSet_same store k _

theorem skipDown_spec_aux (rows : List GroupedFileDisplay) (j : Nat)
    (hj : j < rows.length) (hjsel : (rows.get ⟨j, hj⟩).selectable = true) :
    ∀ fuel start, rows.length - start ≤ fuel → start ≤ j →
      ∃ hlt : skipDownAux rows fuel start < rows.length,
        (rows.get ⟨skipDownAux rows fuel start, hlt⟩).selectable = true := by
  intro fuel
  induction fuel with
  | zero =>
    intro start hn hsj
    exact absurd hj (by omega)
  | succ n ih =>
    intro start hn hsj
    have hs : start < rows.length := by omega
    rw [skipDownAux, dif_pos hs]
    by_cases hsel : (rows.get ⟨start, hs⟩).selectable = true
    · rw [if_pos hsel]
      exact ⟨hs, hsel⟩
    · have hne : j ≠ start := by
        intro he
        subst he
        exact hsel hjsel
      rw [if_neg hsel]
      exact ih (start + 1) (by omega) (by omega)

/-
  The selectable rows of a directory are exactly the visible prefix of
  that directory's size-sorted files: the chain of lemmas below relates
  the display-row filter performed by the d key to the underlying items.
-/

theorem groupBlock_filter_dir (lg : LimitedGroup) (D : String) :
    (groupBlock lg).filter
        (fun f => f.selectable && f.directoryKey == D && f.item.isSome) =
      if lg.group.path = D then
        (lg.group.files.take lg.visibleCount).map (fileRow lg.group)
      else [] := by
  have hhint : (if lg.hasMore then [hintRow lg.group lg.visibleCount] else []).filter
      (fun f => f.selectable && f.directoryKey == D && f.item.isSome) = [] := by
    cases lg.hasMore <;> simp [hintRow]
  by_cases h : lg.group.path = D
  · have hmap : ((lg.group.files.take lg.visibleCount).map (fileRow lg.group)).filter
        (fun f => f.selectable && f.directoryKey == D && f.item.isSome) =
        (lg.group.files.take lg.visibleCount).map (fileRow lg.group) := by
      refine List.filter_eq_self.mpr ?_
      intro a ha
      rcases List.mem_map.mp ha with ⟨f, hf, rfl⟩
      simp [fileRow, h]
    rw [if_pos h, groupBlock, List.filter_append, hhint, List.append_nil,
      List.filter_cons_of_neg (by simp [headerRow]), hmap]
  · have hmap : ((lg.group.files.take lg.visibleCount).map (fileRow lg.group)).filter
        (fun f => f.selectable && f.directoryKey == D && f.item.isSome) = [] := by
      refine List.filter_eq_nil_iff.mpr ?_
      intro a ha
      rcases List.mem_map.mp ha with ⟨f, hf, rfl⟩
      simp [fileRow, h]
    rw [if_neg h, groupBlock, List.filter_append, hhint, List.append_nil,
      List.filter_cons_of_neg (by simp [headerRow]), hmap]

theorem flatten_map_if_eq {β : Type} (groups : List DirectoryGroup) (D : String)
    (F : DirectoryGroup → List β) (hnd : (groups.map fun g => g.path).Nodup)
    {g0 : DirectoryGroup} (hg0 : g0 ∈ groups) (hp : g0.path = D) :
    ((groups.map fun g => if g.path = D then F g else []).flatten) = F g0 := by
  induction groups with
  | nil => cases hg0
  | cons g gs ih =>
    rw [List.map_cons, List.nodup_cons] at hnd
    rcases hnd with ⟨hnotin, hnd2⟩
    by_cases h : g.path = D
    · have hg0g : g0 = g := by
        rcases List.mem_cons.mp hg0 with rfl | hmem
        · rfl
        · exact absurd (List.mem_map.mpr ⟨g0, hmem, hp.trans h.symm⟩) hnotin
      subst hg0g
      simp only [List.map_cons, List.flatten_cons, if_pos h]
      have hrest : (gs.map fun g1 => if g1.path = D then F g1 else []).flatten = [] := by
        rw [List.flatten_eq_nil_iff]
        intro l hl
        rcases List.mem_map.mp hl with ⟨g1, hg1, rfl⟩
        have : g1.path ≠ D := fun he =>
          hnotin (List.mem_map.mpr ⟨g1, hg1, he.trans h.symm⟩)
        simp [this]
      rw [hrest, List.append_nil]
    · have hg0mem : g0 ∈ gs := by
        rcases List.mem_cons.mp hg0 with rfl | hmem
        · exact absurd hp h
        · exact hmem
      simp only [List.map_cons, List.flatten_cons, if_neg h, List.nil_append]
      exact ih hnd2 hg0mem

/-- For a directory D that groupByDirectory produced, the d-key filter of
the display rows yields exactly the paths of the first limit files of the
size-sorted filter of the input at D. -/
theorem rows_filter_dir (files : List CleanableItem) (limits : List (String × Nat))
    (dl : Nat) {D : String}
    (hD : D ∈ (groupByDirectory files).map (fun g => g.path)) :
    ((groupFilesByDirectory files limits dl).filter
        (fun f => f.selectable && f.directoryKey == D && f.item.isSome)).filterMap
        (fun f => f.item.map (fun it => it.path)) =
      ((sortBySizeDesc (files.filter (fun f => dirname f.path = D))).take
        ((limitsGet limits D).getD dl)).map (fun f => f.path) := by
  rcases List.mem_map.mp hD with ⟨g0, hg0, hp⟩
  subst hp
  have hflt :
      (groupFilesByDirectory files limits dl).filter
          (fun f => f.selectable && f.directoryKey == g0.path && f.item.isSome) =
        (g0.files.take ((limitsGet limits g0.path).getD dl)).map (fileRow g0) := by
    rw [groupFilesByDirectory, formatAsDisplayItems, applyExpandLimits, List.map_map,
      List.filter_flatten, List.map_map]
    have hcong :
        ((groupByDirectory files).map fun g =>
          (List.filter
              (fun f => f.selectable && f.directoryKey == g0.path && f.item.isSome) ∘
            groupBlock ∘ fun g =>
              ({ group := g
                 visibleCount := min ((limitsGet limits g.path).getD dl) g.files.length
                 hasMore := decide (g.files.length > (limitsGet limits g.path).getD dl)
                 : LimitedGroup })) g) =
        ((groupByDirectory files).map fun g =>
          if g.path = g0.path then
            (g.files.take (min ((limitsGet limits g.path).getD dl) g.files.length)).map
              (fileRow g)
          else []) := by
      refine List.map_congr_left ?_
      intro g hg
      simpa using groupBlock_filter_dir
        ({ group := g
           visibleCount := min ((limitsGet limits g.path).getD dl) g.files.length
           hasMore := decide (g.files.length > (limitsGet limits g.path).getD dl) })
        g0.path
    rw [hcong, flatten_map_if_eq (groupByDirectory files) g0.path _
      (groupByDirectory_paths_nodup files) hg0 rfl]
    have htake : g0.files.take ((limitsGet limits g0.path).getD dl ⊓ g0.files.length) =
        g0.files.take ((limitsGet limits g0.path).getD dl) := by
      rw [← List.take_take, List.take_length]
    rw [show min ((limitsGet limits g0.path).getD dl) g0.files.length =
        (limitsGet limits g0.path).getD dl ⊓ g0.files.length from rfl, htake]
  rw [hflt, List.filterMap_map, groupByDirectory_mem_eq hg0]
  have hcomp : ((fun f : GroupedFileDisplay => f.item.map (fun it => it.path)) ∘ fileRow g0) =
      fun f : CleanableItem => some f.path := by
    funext f
    simp [fileRow]
  rw [hcomp]
  induction ((sortBySizeDesc
      (files.filter (fun f => dirname f.path = g0.path))).take
      ((limitsGet limits g0.path).getD dl)) with
  | nil => rfl
  | cons f fs ih => simp [List.filterMap_cons, ih]

/-- A selectable display row always belongs to some produced group and
carries that group's path as its directoryKey. -/
theorem selectable_row_dirkey {files : List CleanableItem} {limits : List (String × Nat)}
    {dl : Nat} {caret : Nat} {r : GroupedFileDisplay}
    (hr : (groupFilesByDirectory files limits dl)[caret]? = some r)
    (hsel : r.selectable = true) :
    r.directoryKey ∈ (groupByDirectory files).map (fun g => g.path) := by
  have hmem : r ∈ groupFilesByDirectory files limits dl := by
    rcases List.getElem?_eq_some_iff.mp hr with ⟨hlt, heq⟩
    exact heq ▸ List.getElem_mem hlt
  rw [groupFilesByDirectory, formatAsDisplayItems, applyExpandLimits, List.map_map]
    at hmem
  rcases List.mem_flatten.mp hmem with ⟨bl, hbl, hrbl⟩
  rcases List.mem_map.mp hbl with ⟨g, hgmem, rfl⟩
  simp only [Function.comp, groupBlock, List.mem_append, List.mem_cons,
    List.mem_map] at hrbl
  rcases hrbl with (rfl | ⟨f, hf, rfl⟩) | hhint
  · simp [headerRow] at hsel
  · exact List.mem_map.mpr ⟨g, hgmem, rfl⟩
  · have hre : r = hintRow g (min ((limitsGet limits g.path).getD dl) g.files.length) := by
      cases hm : decide (g.files.length > (limitsGet limits g.path).getD dl)
      · simp [hm] at hhint
      · simp [hm] at hhint
        exact hhint
    rw [hre] at hsel
    simp [hintRow] at hsel

/-- The forward scan lands on a selectable row whenever some selectable
row exists at or after the start position. -/
theorem skipDown_spec (rows : List GroupedFileDisplay) (start : Nat)
    (h : ∃ j, start ≤ j ∧ ∃ hj : j < rows.length, (rows.get ⟨j, hj⟩).selectable = true) :
    ∃ hlt : skipDown rows start < rows.length,
      (rows.get ⟨skipDown rows start, hlt⟩).selectable = true := by
  rcases h with ⟨j, hsj, hj, hjsel⟩
  exact skipDown_spec_aux rows j hj hjsel (rows.length - start) start (Nat.le_refl _) hsj

/-
  Claim theorems.
-/

/-- C1: for every press of d in the files pane — any row list, caret,
active category and selection state — the selectedCategories set after
the command equals the set before it, and only the active category's
selected-file entry is mutated, even when the toggle empties or fully
populates that category's file set. -/
theorem c1_dKey_preserves_selectedCategories
    (rows : List GroupedFileDisplay) (fileCaret : Nat) (activeCategory : CategoryId)
    (s : SelectionState) :
    (dFilesKey rows fileCaret activeCategory s).selectedCategories =
      s.selectedCategories ∧
    ∀ k, k ≠ activeCategory →
      (dFilesKey rows fileCaret activeCategory s).selectedFilesByCategory k =
        s.selectedFilesByCategory k := by
  refine ⟨?_, ?_⟩
  · cases h : rows[fileCaret]? with
    | none => simp [dFilesKey, h]
    | some r =>
      by_cases hsel : r.selectable = true
      · simp [dFilesKey, h, hsel]
      · simp [dFilesKey, h, hsel]
  · intro k hk
    cases h : rows[fileCaret]? with
    | none => simp [dFilesKey, h]
    | some r =>
      by_cases hsel : r.selectable = true
      · simp [dFilesKey, h, hsel, mapSet, hk]
      · simp [dFilesKey, h, hsel]

/-- Witness for C1: a concrete directory toggle from the empty selection
leaves selectedCategories and the entry of another category untouched. -/
theorem c1_witness :
    (dFilesKey rowsSix 1 "large-files" initialSelection).selectedCategories =
      initialSelection.selectedCategories ∧
    (dFilesKey rowsSix 1 "large-files" initialSelection).selectedFilesByCategory
        "downloads" = initialSelection.selectedFilesByCategory "downloads" :=
  ⟨(c1_dKey_preserves_selectedCategories rowsSix 1 "large-files" initialSelection).1,
   (c1_dKey_preserves_selectedCategories rowsSix 1 "large-files" initialSelection).2
     "downloads" (by decide)⟩

/-- C4: toggling a single file with space in the files pane: selecting a
previously unselected file adds its path to the category's selected-file
set and adds the category id to selectedCategories; deselecting the file
when it was the only selected path removes it and removes the category id
from selectedCategories. -/
theorem c4_single_file_toggle
    (rows : List GroupedFileDisplay) (fileCaret : Nat) (cat : CategoryId)
    (s : SelectionState) (r : GroupedFileDisplay) (it : CleanableItem)
    (hr : rows[fileCaret]? = some r) (hsel : r.selectable = true)
    (hit : r.item = some it) :
    (it.path ∉ getFiles s.selectedFilesByCategory cat →
      getFiles (spaceFilesKey rows fileCaret cat s).selectedFilesByCategory cat =
        insert it.path (getFiles s.selectedFilesByCategory cat) ∧
      (spaceFilesKey rows fileCaret cat s).selectedCategories =
        insert cat s.selectedCategories) ∧
    (getFiles s.selectedFilesByCategory cat = {it.path} →
      getFiles (spaceFilesKey rows fileCaret cat s).selectedFilesByCategory cat = ∅ ∧
      (spaceFilesKey rows fileCaret cat s).selectedCategories =
        s.selectedCategories.erase cat) := by
  simp only [spaceFilesKey, hr, if_pos hsel, hit]
  constructor
  · intro hnot
    rw [if_neg hnot]
    exact ⟨getFiles_mapSet_same _ _ _, rfl⟩
  · intro honly
    have hmem : it.path ∈ getFiles s.selectedFilesByCategory cat := by
      rw [honly]
      exact Finset.mem_singleton_self _
    rw [if_pos hmem]
    have hempty : (getFiles s.selectedFilesByCategory cat).erase it.path = ∅ := by
      rw [honly]
      simp
    rw [hempty]
    simp only [if_pos rfl]
    exact ⟨getFiles_mapSet_same _ _ _, rfl⟩

/-- Witness for C4: from the empty selection, space on the first file row
selects its path and auto-selects the category; from the resulting
single-path selection, space on the same row empties the set and removes
the category. -/
theorem c4_witness :
    (getFiles (spaceFilesKey rowsTwo 1 "large-files" initialSelection).selectedFilesByCategory
        "large-files" =
      insert "/t/a.txt" (getFiles initialSelection.selectedFilesByCategory "large-files") ∧
     (spaceFilesKey rowsTwo 1 "large-files" initialSelection).selectedCategories =
      insert "large-files" initialSelection.selectedCategories) ∧
    (getFiles (spaceFilesKey rowsTwo 1 "large-files"
          (spaceFilesKey rowsTwo 1 "large-files" initialSelection)).selectedFilesByCategory
        "large-files" = ∅ ∧
     (spaceFilesKey rowsTwo 1 "large-files"
          (spaceFilesKey rowsTwo 1 "large-files" initialSelection)).selectedCategories =
      (spaceFilesKey rowsTwo 1 "large-files" initialSelection).selectedCategories.erase
        "large-files") :=
  ⟨(c4_single_file_toggle rowsTwo 1 "large-files" initialSelection
      ⟨.file, "/t", true, some ⟨"/t/a.txt", "a.txt", 200, false⟩, some 200, none, 2⟩
      ⟨"/t/a.txt", "a.txt", 200, false⟩ (by decide) (by decide) (by decide)).1 (by decide),
   (c4_single_file_toggle rowsTwo 1 "large-files"
      (spaceFilesKey rowsTwo 1 "large-files" initialSelection)
      ⟨.file, "/t", true, some ⟨"/t/a.txt", "a.txt", 200, false⟩, some 200, none, 2⟩
      ⟨"/t/a.txt", "a.txt", 200, false⟩ (by decide) (by decide) (by decide)).2 (by decide)⟩

/-- C5: space in the category pane on a selected category removes it from
selectedCategories and, when it supports file selection, replaces its
selected-file entry by the empty set and marks its UI state not-visible;
space on an unselected category inserts it and, when it supports file
selection, selects all of its current item paths and marks its UI state
visible. -/
theorem c5_spaceCategories_toggle
    (results : List ScanResult) (fileSel : Finset CategoryId) (c : CategoryId)
    (s : SelectionState) (store : FilePickerStatesStore) (r : ScanResult)
    (hfind : results.find? (fun x => x.categoryId == c) = some r) :
    (c ∈ s.selectedCategories →
      (spaceCategoriesKey results fileSel c s store).1.selectedCategories =
        s.selectedCategories.erase c ∧
      (c ∈ fileSel →
        getFiles (spaceCategoriesKey results fileSel c s store).1.selectedFilesByCategory
          c = ∅ ∧
        (getPickerState (spaceCategoriesKey results fileSel c s store).2 c).visible =
          false)) ∧
    (c ∉ s.selectedCategories →
      (spaceCategoriesKey results fileSel c s store).1.selectedCategories =
        insert c s.selectedCategories ∧
      (c ∈ fileSel →
        getFiles (spaceCategoriesKey results fileSel c s store).1.selectedFilesByCategory
          c = itemPathsSet r ∧
        (getPickerState (spaceCategoriesKey results fileSel c s store).2 c).visible =
          true)) := by
  constructor
  · intro hmem
    refine ⟨by simp [spaceCategoriesKey, hmem], ?_⟩
    intro hfs
    constructor
    · simp [spaceCategoriesKey, hmem, hfs, getFiles_mapSet_same]
    · simp [spaceCategoriesKey, hmem, hfs, getPickerState_updatePickerState_same]
  · intro hmem
    refine ⟨by simp [spaceCategoriesKey, hmem], ?_⟩
    intro hfs
    constructor
    · simp [spaceCategoriesKey, hmem, hfs, hfind, getFiles_mapSet_same]
    · simp [spaceCategoriesKey, hmem, hfs, getPickerState_updatePickerState_same]

/-- Witness for C5: selecting then deselecting a concrete category via
space, observing the file entry and visibility flag both times. -/
theorem c5_witness :
    ((spaceCategoriesKey resultsTwo fileSelLarge "large-files" initialSelection
        []).1.selectedCategories =
      insert "large-files" initialSelection.selectedCategories ∧
     getFiles (spaceCategoriesKey resultsTwo fileSelLarge "large-files" initialSelection
        []).1.selectedFilesByCategory "large-files" = itemPathsSet ⟨"large-files", itemsTwo⟩ ∧
     (getPickerState (spaceCategoriesKey resultsTwo fileSelLarge "large-files"
        initialSelection []).2 "large-files").visible = true) ∧
    ((spaceCategoriesKey resultsTwo fileSelLarge "large-files"
        (spaceCategoriesKey resultsTwo fileSelLarge "large-files" initialSelection []).1
        (spaceCategoriesKey resultsTwo fileSelLarge "large-files" initialSelection
          []).2).1.selectedCategories =
      (spaceCategoriesKey resultsTwo fileSelLarge "large-files" initialSelection
        []).1.selectedCategories.erase "large-files" ∧
     getFiles (spaceCategoriesKey resultsTwo fileSelLarge "large-files"
        (spaceCategoriesKey resultsTwo fileSelLarge "large-files" initialSelection []).1
        (spaceCategoriesKey resultsTwo fileSelLarge "large-files" initialSelection
          []).2).1.selectedFilesByCategory "large-files" = ∅ ∧
     (getPickerState (spaceCategoriesKey resultsTwo fileSelLarge "large-files"
        (spaceCategoriesKey resultsTwo fileSelLarge "large-files" initialSelection []).1
        (spaceCategoriesKey resultsTwo fileSelLarge "large-files" initialSelection
          []).2).2 "large-files").visible = false) := by
  have h1 := (c5_spaceCategories_toggle resultsTwo fileSelLarge "large-files"
    initialSelection [] ⟨"large-files", itemsTwo⟩ (by decide)).2 (by decide)
  have h2 := (c5_spaceCategories_toggle resultsTwo fileSelLarge "large-files"
    (spaceCategoriesKey resultsTwo fileSelLarge "large-files" initialSelection []).1
    (spaceCategoriesKey resultsTwo fileSelLarge "large-files" initialSelection []).2
    ⟨"large-files", itemsTwo⟩ (by decide)).1 (by decide)
  exact ⟨⟨h1.1, h1.2 (by decide)⟩, ⟨h2.1, h2.2 (by decide)⟩⟩

/-- C6: a in the files pane operates over all of the active category's
underlying scanned items: under the reachability invariant that the
current selection holds only item paths, if every item path is already
selected they are all cleared and the category is removed; otherwise the
entry becomes exactly the full item-path set and the category is
inserted. -/
theorem c6_aFiles_all_items
    (results : List ScanResult) (cat : CategoryId) (s : SelectionState) (r : ScanResult)
    (hfind : results.find? (fun x => x.categoryId == cat) = some r)
    (hsub : getFiles s.selectedFilesByCategory cat ⊆ itemPathsSet r) :
    (itemPathsSet r ⊆ getFiles s.selectedFilesByCategory cat →
      getFiles (aFilesKey results cat s).selectedFilesByCategory cat = ∅ ∧
      (aFilesKey results cat s).selectedCategories = s.selectedCategories.erase cat) ∧
    (¬ itemPathsSet r ⊆ getFiles s.selectedFilesByCategory cat →
      getFiles (aFilesKey results cat s).selectedFilesByCategory cat = itemPathsSet r ∧
      (aFilesKey results cat s).selectedCategories = insert cat s.selectedCategories) := by
  constructor
  · intro hall
    have hcond : ((r.items.map (fun it => it.path)).all
        (fun p => decide (p ∈ getFiles s.selectedFilesByCategory cat))) = true :=
      (all_mem_iff_subset _ _).mpr hall
    have hempty : (r.items.map (fun it => it.path)).foldl
        (fun acc p => acc.erase p) (getFiles s.selectedFilesByCategory cat) = ∅ := by
      rw [foldl_erase_eq_sdiff]
      exact Finset.sdiff_eq_empty_iff_subset.mpr hsub
    constructor
    · simp [aFilesKey, hfind, hcond, hempty, getFiles_mapSet_same]
    · simp [aFilesKey, hfind, hcond, hempty]
  · intro hnall
    have hcond : ((r.items.map (fun it => it.path)).all
        (fun p => decide (p ∈ getFiles s.selectedFilesByCategory cat))) = false := by
      rw [← Bool.not_eq_true]
      intro hcontra
      exact hnall ((all_mem_iff_subset _ _).mp hcontra)
    have hunion : (r.items.map (fun it => it.path)).foldl
        (fun acc p => insert p acc) (getFiles s.selectedFilesByCategory cat) =
        itemPathsSet r := by
      rw [foldl_insert_eq_union]
      exact Finset.union_eq_right.mpr hsub
    constructor
    · simp [aFilesKey, hfind, hcond, hunion, getFiles_mapSet_same, itemPathsSet]
    · simp [aFilesKey, hfind, hcond]

/-- Witness for C6: from the empty selection, a selects both item paths
and the category; pressing a again clears the entry and removes the
category. -/
theorem c6_witness :
    (getFiles (aFilesKey resultsTwo "large-files"
        initialSelection).selectedFilesByCategory "large-files" =
      itemPathsSet ⟨"large-files", itemsTwo⟩ ∧
     (aFilesKey resultsTwo "large-files" initialSelection).selectedCategories =
      insert "large-files" initialSelection.selectedCategories) ∧
    (getFiles (aFilesKey resultsTwo "large-files"
        (aFilesKey resultsTwo "large-files" initialSelection)).selectedFilesByCategory
        "large-files" = ∅ ∧
     (aFilesKey resultsTwo "large-files"
        (aFilesKey resultsTwo "large-files"
          initialSelection)).selectedCategories =
      (aFilesKey resultsTwo "large-files" initialSelection).selectedCategories.erase
        "large-files") :=
  ⟨(c6_aFiles_all_items resultsTwo "large-files" initialSelection
      ⟨"large-files", itemsTwo⟩ (by decide) (by decide)).2 (by decide),
   (c6_aFiles_all_items resultsTwo "large-files"
      (aFilesKey resultsTwo "large-files" initialSelection)
      ⟨"large-files", itemsTwo⟩ (by decide) (by decide)).1 (by decide)⟩

/-- C7: cross-category isolation — for each selection operation scoped to
one category (single-file toggle, files-pane select-all, files-pane
invert, directory toggle, whole-category toggle), every other category's
selected-file entry and selectedCategories membership are unchanged. -/
theorem c7_cross_category_isolation
    (rows : List GroupedFileDisplay) (fileCaret : Nat) (results : List ScanResult)
    (cat : CategoryId) (fileSel : Finset CategoryId) (s : SelectionState)
    (store : FilePickerStatesStore) (k : CategoryId) (hk : k ≠ cat) :
    ((spaceFilesKey rows fileCaret cat s).selectedFilesByCategory k =
        s.selectedFilesByCategory k ∧
      (k ∈ (spaceFilesKey rows fileCaret cat s).selectedCategories ↔
        k ∈ s.selectedCategories)) ∧
    ((aFilesKey results cat s).selectedFilesByCategory k =
        s.selectedFilesByCategory k ∧
      (k ∈ (aFilesKey results cat s).selectedCategories ↔
        k ∈ s.selectedCategories)) ∧
    ((iFilesKey results cat s).selectedFilesByCategory k =
        s.selectedFilesByCategory k ∧
      (k ∈ (iFilesKey results cat s).selectedCategories ↔
        k ∈ s.selectedCategories)) ∧
    ((dFilesKey rows fileCaret cat s).selectedFilesByCategory k =
        s.selectedFilesByCategory k ∧
      (k ∈ (dFilesKey rows fileCaret cat s).selectedCategories ↔
        k ∈ s.selectedCategories)) ∧
    ((spaceCategoriesKey results fileSel cat s store).1.selectedFilesByCategory k =
        s.selectedFilesByCategory k ∧
      (k ∈ (spaceCategoriesKey results fileSel cat s store).1.selectedCategories ↔
        k ∈ s.selectedCategories)) := by
  refine ⟨?_, ?_, ?_, ?_, ?_⟩
  · cases h : rows[fileCaret]? with
    | none => simp [spaceFilesKey, h]
    | some r =>
      by_cases hsel : r.selectable = true
      · cases hit : r.item with
        | none => simp [spaceFilesKey, h, hsel, hit]
        | some it =>
          by_cases hmem : it.path ∈ getFiles s.selectedFilesByCategory cat
          · by_cases hz :
              (getFiles s.selectedFilesByCategory cat).erase it.path = (∅ : Finset String)
            · simp [spaceFilesKey, h, hsel, hit, hmem, hz, mapSet, hk, Ne.symm hk]
            · simp [spaceFilesKey, h, hsel, hit, hmem, hz, mapSet, hk]
          · simp [spaceFilesKey, h, hsel, hit, hmem, mapSet, hk, Ne.symm hk]
      · simp [spaceFilesKey, h, hsel]
  · cases hfind : results.find? (fun x => x.categoryId == cat) with
    | none => simp [aFilesKey, hfind]
    | some r =>
      by_cases hall : ((r.items.map (fun it => it.path)).all
          (fun p => decide (p ∈ getFiles s.selectedFilesByCategory cat))) = true
      · by_cases hz : (r.items.map (fun it => it.path)).foldl
            (fun acc p => acc.erase p) (getFiles s.selectedFilesByCategory cat) =
            (∅ : Finset String)
        · simp [aFilesKey, hfind, hall, hz, mapSet, hk, Ne.symm hk]
        · simp [aFilesKey, hfind, hall, hz, mapSet, hk]
      · simp [aFilesKey, hfind, hall, mapSet, hk, Ne.symm hk]
  · cases hfind : results.find? (fun x => x.categoryId == cat) with
    | none => simp [iFilesKey, hfind]
    | some r =>
      by_cases hany : ((r.items.map (fun it => it.path)).foldl
          (fun (acc : Finset String × Bool) p =>
            if p ∈ acc.1 then (acc.1.erase p, acc.2) else (insert p acc.1, true))
          (getFiles s.selectedFilesByCategory cat, false)).2 = true
      · simp [iFilesKey, hfind, hany, mapSet, hk, Ne.symm hk]
      · by_cases hz : ((r.items.map (fun it => it.path)).foldl
            (fun (acc : Finset String × Bool) p =>
              if p ∈ acc.1 then (acc.1.erase p, acc.2) else (insert p acc.1, true))
            (getFiles s.selectedFilesByCategory cat, false)).1 = (∅ : Finset String)
        · simp [iFilesKey, hfind, hany, hz, mapSet, hk, Ne.symm hk]
        · simp [iFilesKey, hfind, hany, hz, mapSet, hk]
  · cases h : rows[fileCaret]? with
    | none => simp [dFilesKey, h]
    | some r =>
      by_cases hsel : r.selectable = true
      · simp [dFilesKey, h, hsel, mapSet, hk]
      · simp [dFilesKey, h, hsel]
  · by_cases hmem : cat ∈ s.selectedCategories
    · by_cases hfs : cat ∈ fileSel
      · simp [spaceCategoriesKey, hmem, hfs, mapSet, hk, Ne.symm hk]
      · simp [spaceCategoriesKey, hmem, hfs, hk, Ne.symm hk]
    · by_cases hfs : cat ∈ fileSel
      · cases hfind : results.find? (fun x => x.categoryId == cat) with
        | none => simp [spaceCategoriesKey, hmem, hfs, hfind, hk, Ne.symm hk]
        | some r => simp [spaceCategoriesKey, hmem, hfs, hfind, mapSet, hk, Ne.symm hk]
      · simp [spaceCategoriesKey, hmem, hfs, hk, Ne.symm hk]

/-- Witness for C7 at a concrete input: the downloads category is
untouched by all five operations scoped to large-files. -/
theorem c7_witness :
    ((spaceFilesKey rowsTwo 1 "large-files" initialSelection).selectedFilesByCategory
        "downloads" = initialSelection.selectedFilesByCategory "downloads" ∧
      ("downloads" ∈ (spaceFilesKey rowsTwo 1 "large-files"
          initialSelection).selectedCategories ↔
        "downloads" ∈ initialSelection.selectedCategories)) ∧
    ((aFilesKey resultsTwo "large-files" initialSelection).selectedFilesByCategory
        "downloads" = initialSelection.selectedFilesByCategory "downloads" ∧
      ("downloads" ∈ (aFilesKey resultsTwo "large-files"
          initialSelection).selectedCategories ↔
        "downloads" ∈ initialSelection.selectedCategories)) ∧
    ((iFilesKey resultsTwo "large-files" initialSelection).selectedFilesByCategory
        "downloads" = initialSelection.selectedFilesByCategory "downloads" ∧
      ("downloads" ∈ (iFilesKey resultsTwo "large-files"
          initialSelection).selectedCategories ↔
        "downloads" ∈ initialSelection.selectedCategories)) ∧
    ((dFilesKey rowsTwo 1 "large-files" initialSelection).selectedFilesByCategory
        "downloads" = initialSelection.selectedFilesByCategory "downloads" ∧
      ("downloads" ∈ (dFilesKey rowsTwo 1 "large-files"
          initialSelection).selectedCategories ↔
        "downloads" ∈ initialSelection.selectedCategories)) ∧
    ((spaceCategoriesKey resultsTwo fileSelLarge "large-files" initialSelection
        []).1.selectedFilesByCategory "downloads" =
        initialSelection.selectedFilesByCategory "downloads" ∧
      ("downloads" ∈ (spaceCategoriesKey resultsTwo fileSelLarge "large-files"
          initialSelection []).1.selectedCategories ↔
        "downloads" ∈ initialSelection.selectedCategories)) :=
  c7_cross_category_isolation rowsTwo 1 resultsTwo "large-files" fileSelLarge
    initialSelection [] "downloads" (by decide)

/-- C9: groupByDirectory orders the directory groups by their largest
member's size descending, orders the items within each directory by size
descending, and keeps encounter order between equal-sized items of a
directory (stated as: any equal-sized pair, in the order it occurs in the
input restricted to that directory, is a sublist of the group's files). -/
theorem c9_grouping_order (files : List CleanableItem) :
    List.Pairwise
      (fun g1 g2 : DirectoryGroup => g2.largestFileSize ≤ g1.largestFileSize)
      (groupByDirectory files) ∧
    (∀ g ∈ groupByDirectory files,
      List.Pairwise (fun a b : CleanableItem => b.size ≤ a.size) g.files) ∧
    (∀ g ∈ groupByDirectory files, ∀ a b : CleanableItem, a.size = b.size →
      List.Sublist [a, b] (files.filter (fun f => dirname f.path = g.path)) →
      List.Sublist [a, b] g.files) := by
  refine ⟨?_, ?_, ?_⟩
  · exact sortKeyDesc_pairwise (fun g => g.largestFileSize)
      ((buildGroups files).map mkGroup)
  · intro g hg
    rw [groupByDirectory_mem_eq hg]
    exact sortKeyDesc_pairwise (fun f : CleanableItem => f.size) _
  · intro g hg a b hsize hsub
    rw [groupByDirectory_mem_eq hg]
    exact sortKeyDesc_stable (fun f : CleanableItem => f.size) (le_of_eq hsize.symm) hsub

/-- Witness for C9: two equal-sized files of one directory keep their
encounter order in the produced group. -/
theorem c9_witness :
    List.Sublist
      [(⟨"/d/a.txt", "a.txt", 5, false⟩ : CleanableItem),
       ⟨"/d/b.txt", "b.txt", 5, false⟩]
      (({ path := "/d"
          files := [⟨"/d/a.txt", "a.txt", 5, false⟩, ⟨"/d/b.txt", "b.txt", 5, false⟩]
          largestFileSize := 5 } : DirectoryGroup)).files :=
  (c9_grouping_order itemsTie).2.2
    { path := "/d"
      files := [⟨"/d/a.txt", "a.txt", 5, false⟩, ⟨"/d/b.txt", "b.txt", 5, false⟩]
      largestFileSize := 5 } (by decide) _ _ rfl (by decide)

/-- Counterexample to C2: in a directory of six items under the default
visibility limit of five, the caret sits on a selectable row of directory
/d, the item /d/f6.txt belongs to /d, yet after d from the empty
selection that hidden item is not selected — the command did not toggle
every underlying scanned item of the directory. -/
theorem c2_cex :
    (rowsSix[1]?.map (fun r => r.selectable)) = some true ∧
    (rowsSix[1]?.map (fun r => r.directoryKey)) = some "/d" ∧
    dirname "/d/f6.txt" = "/d" ∧
    (⟨"/d/f6.txt", "f6.txt", 100, false⟩ : CleanableItem) ∈ itemsSix ∧
    "/d/f6.txt" ∉ getFiles (dFilesKey rowsSix 1 "large-files"
        initialSelection).selectedFilesByCategory "large-files" := by
  decide

/-- C2 as amended: with the caret on a selectable row, d toggles exactly
the visible file rows of that row's directory — the paths of the first
limit entries of the directory's size-sorted items, limit being the
per-directory override or the default — leaving items hidden by the
visibility limit untouched, and never changes selectedCategories. -/
theorem c2_dKey_toggles_visible_directory
    (files : List CleanableItem) (limits : List (String × Nat)) (dl : Nat)
    (caret : Nat) (cat : CategoryId) (s : SelectionState) (r : GroupedFileDisplay)
    (hr : (groupFilesByDirectory files limits dl)[caret]? = some r)
    (hsel : r.selectable = true) :
    getFiles (dFilesKey (groupFilesByDirectory files limits dl) caret cat
        s).selectedFilesByCategory cat =
      (if (((sortBySizeDesc (files.filter (fun f => dirname f.path = r.directoryKey))).take
              ((limitsGet limits r.directoryKey).getD dl)).map
            (fun f => f.path)).toFinset ⊆ getFiles s.selectedFilesByCategory cat
       then
        getFiles s.selectedFilesByCategory cat \
          (((sortBySizeDesc (files.filter
                (fun f => dirname f.path = r.directoryKey))).take
              ((limitsGet limits r.directoryKey).getD dl)).map
            (fun f => f.path)).toFinset
       else
        getFiles s.selectedFilesByCategory cat ∪
          (((sortBySizeDesc (files.filter
                (fun f => dirname f.path = r.directoryKey))).take
              ((limitsGet limits r.directoryKey).getD dl)).map
            (fun f => f.path)).toFinset) ∧
    (dFilesKey (groupFilesByDirectory files limits dl) caret cat s).selectedCategories =
      s.selectedCategories := by
  have hD := selectable_row_dirkey hr hsel
  have hfil := rows_filter_dir files limits dl hD
  constructor
  · simp only [dFilesKey, hr, if_pos hsel, hfil, getFiles_mapSet_same]
    by_cases hsub : (((sortBySizeDesc (files.filter
          (fun f => dirname f.path = r.directoryKey))).take
          ((limitsGet limits r.directoryKey).getD dl)).map
        (fun f => f.path)).toFinset ⊆ getFiles s.selectedFilesByCategory cat
    · rw [if_pos ((all_mem_iff_subset _ _).mpr hsub), if_pos hsub,
        foldl_erase_eq_sdiff]
    · rw [if_neg (fun hcontra => hsub ((all_mem_iff_subset _ _).mp hcontra)),
        if_neg hsub, foldl_insert_eq_union]
  · simp only [dFilesKey, hr, if_pos hsel]

/-- Witness for the amended C2: on the six-item fixture, d from the empty
selection selects exactly the five visible paths. -/
theorem c2_witness :
    getFiles (dFilesKey (groupFilesByDirectory itemsSix [] 5) 1 "large-files"
        initialSelection).selectedFilesByCategory "large-files" =
      ({"/d/f1.txt", "/d/f2.txt", "/d/f3.txt", "/d/f4.txt", "/d/f5.txt"} :
        Finset String) := by
  have h := (c2_dKey_toggles_visible_directory itemsSix [] 5 1 "large-files"
    initialSelection
    ⟨.file, "/d", true, some ⟨"/d/f1.txt", "f1.txt", 600, false⟩, some 600, none, 6⟩
    (by decide) (by decide)).1
  rw [h]
  decide

/-- Full characterisation of a in the files pane when every item path is
already selected: the item paths are removed, and the category is erased
exactly when nothing remains. -/
theorem aFilesKey_all_case (results : List ScanResult) (cat : CategoryId)
    (s : SelectionState) (r : ScanResult)
    (hfind : results.find? (fun x => x.categoryId == cat) = some r)
    (hall : itemPathsSet r ⊆ getFiles s.selectedFilesByCategory cat) :
    aFilesKey results cat s =
      { selectedCategories :=
          if getFiles s.selectedFilesByCategory cat \ itemPathsSet r = ∅
          then s.selectedCategories.erase cat else s.selectedCategories
        selectedFilesByCategory := mapSet s.selectedFilesByCategory cat
          (getFiles s.selectedFilesByCategory cat \ itemPathsSet r) } := by
  have hcond : ((r.items.map (fun it => it.path)).all
      (fun p => decide (p ∈ getFiles s.selectedFilesByCategory cat))) = true :=
    (all_mem_iff_subset _ _).mpr hall
  simp only [aFilesKey, hfind, hcond, if_true, foldl_erase_eq_sdiff]
  rfl

/-- Full characterisation of a in the files pane when some item path is
not yet selected: all item paths are added and the category is
inserted. -/
theorem aFilesKey_notall_case (results : List ScanResult) (cat : CategoryId)
    (s : SelectionState) (r : ScanResult)
    (hfind : results.find? (fun x => x.categoryId == cat) = some r)
    (hnall : ¬ itemPathsSet r ⊆ getFiles s.selectedFilesByCategory cat) :
    aFilesKey results cat s =
      { selectedCategories := insert cat s.selectedCategories
        selectedFilesByCategory := mapSet s.selectedFilesByCategory cat
          (getFiles s.selectedFilesByCategory cat ∪ itemPathsSet r) } := by
  have hcond : ((r.items.map (fun it => it.path)).all
      (fun p => decide (p ∈ getFiles s.selectedFilesByCategory cat))) = false := by
    rw [← Bool.not_eq_true]
    intro hcontra
    exact hnall ((all_mem_iff_subset _ _).mp hcontra)
  simp only [aFilesKey, hfind, hcond, Bool.false_eq_true, if_false,
    foldl_insert_eq_union]
  rfl

/-- Counterexample to C3: from the reachable state in which only one of
the two files is selected (space on the first file row from the empty
selection), pressing a twice does not restore that state — both the
selected categories and the file set differ afterwards. -/
theorem c3_cex :
    (aFilesKey resultsTwo "large-files"
        (aFilesKey resultsTwo "large-files"
          (spaceFilesKey rowsTwo 1 "large-files"
            initialSelection))).selectedCategories ≠
      (spaceFilesKey rowsTwo 1 "large-files" initialSelection).selectedCategories ∧
    getFiles (aFilesKey resultsTwo "large-files"
        (aFilesKey resultsTwo "large-files"
          (spaceFilesKey rowsTwo 1 "large-files"
            initialSelection))).selectedFilesByCategory "large-files" ≠
      getFiles (spaceFilesKey rowsTwo 1 "large-files"
          initialSelection).selectedFilesByCategory "large-files" := by
  decide

/-- C3 as amended: pressing a twice in succession restores the pre-press
selection exactly in the documented scenarios — in the files pane when
the active category's file set is empty (category unselected) or equal to
the full nonempty item-path set (category selected), and in the category
pane when the selection is entirely empty; from intermediate states the
second press leaves the cleared state instead of the partial one. -/
theorem c3_aKey_roundtrip_empty_or_full :
    (∀ (results : List ScanResult) (cat : CategoryId) (s : SelectionState)
        (r : ScanResult),
      results.find? (fun x => x.categoryId == cat) = some r →
      ((getFiles s.selectedFilesByCategory cat = ∅ ∧ cat ∉ s.selectedCategories) ∨
       (getFiles s.selectedFilesByCategory cat = itemPathsSet r ∧
        itemPathsSet r ≠ ∅ ∧ cat ∈ s.selectedCategories)) →
      SelEquiv (aFilesKey results cat (aFilesKey results cat s)) s) ∧
    (∀ (results : List ScanResult) (fileSel : Finset CategoryId) (s : SelectionState),
      s.selectedCategories = ∅ →
      (∀ k, getFiles s.selectedFilesByCategory k = ∅) →
      SelEquiv (aCategoriesKey results fileSel (aCategoriesKey results fileSel s)) s) := by
  constructor
  · intro results cat s r hfind hcase
    rcases hcase with ⟨hcur, hmem⟩ | ⟨hcur, hne, hmem⟩
    · by_cases hA : itemPathsSet r = ∅
      · have e1 := aFilesKey_all_case results cat s r hfind
          (by rw [hA]; exact Finset.empty_subset _)
        have h1f : getFiles (aFilesKey results cat s).selectedFilesByCategory cat = ∅ := by
          rw [e1]
          simp [getFiles_mapSet_same, hcur]
        have e2 := aFilesKey_all_case results cat (aFilesKey results cat s) r hfind
          (by rw [hA]; exact Finset.empty_subset _)
        rw [e2, e1]
        constructor
        · simp [hcur, hA, getFiles_mapSet_same,
            Finset.erase_eq_of_not_mem hmem]
        · intro k
          by_cases hkc : k = cat
          · subst hkc
            simp [getFiles_mapSet_same, hcur, hA]
          · simp [getFiles, mapSet, hkc]
      · have e1 := aFilesKey_notall_case results cat s r hfind
          (fun hcontra => hA (Finset.subset_empty.mp (hcur ▸ hcontra)))
        have h1f : getFiles (aFilesKey results cat s).selectedFilesByCategory cat =
            itemPathsSet r := by
          rw [e1]
          simp [getFiles_mapSet_same, hcur]
        have hsubA : itemPathsSet r ⊆
            getFiles (aFilesKey results cat s).selectedFilesByCategory cat := by
          intro x hx
          rw [h1f]
          exact hx
        have e2 := aFilesKey_all_case results cat (aFilesKey results cat s) r hfind hsubA
        rw [e2, e1]
        have hcond : (getFiles s.selectedFilesByCategory cat ∪ itemPathsSet r) \
            itemPathsSet r = ∅ := by
          rw [hcur]
          simp
        constructor
        · simp [getFiles_mapSet_same, hcond, Finset.erase_insert hmem]
        · intro k
          by_cases hkc : k = cat
          · subst hkc
            simp [getFiles_mapSet_same, hcond, hcur]
          · simp [getFiles, mapSet, hkc]
    · have hsubA : itemPathsSet r ⊆ getFiles s.selectedFilesByCategory cat := by
        intro x hx
        rw [hcur]
        exact hx
      have e1 := aFilesKey_all_case results cat s r hfind hsubA
      have hdiff : getFiles s.selectedFilesByCategory cat \ itemPathsSet r = ∅ := by
        rw [hcur]
        simp
      have h1f : getFiles (aFilesKey results cat s).selectedFilesByCategory cat =
          (∅ : Finset String) := by
        rw [e1]
        simp [getFiles_mapSet_same, hdiff]
      have e2 := aFilesKey_notall_case results cat (aFilesKey results cat s) r hfind
        (by rw [h1f]; exact fun hcontra => hne (Finset.subset_empty.mp hcontra))
      rw [e2, e1]
      constructor
      · simp [hdiff, getFiles_mapSet_same, Finset.insert_erase hmem]
      · intro k
        by_cases hkc : k = cat
        · subst hkc
          simp [getFiles_mapSet_same, hdiff, hcur]
        · simp [getFiles, mapSet, hkc]
  · intro results fileSel s hcats hfiles
    have hclear : ∀ t : SelectionState,
        ((results.map (fun x => x.categoryId)).all
          (fun id => decide (id ∈ t.selectedCategories))) = true →
        aCategoriesKey results fileSel t =
          { selectedCategories := ∅, selectedFilesByCategory := fun _ => none } := by
      intro t ht
      simp only [aCategoriesKey]
      rw [ht]
      simp
    cases results with
    | nil =>
      rw [hclear s (by simp), hclear _ (by simp)]
      refine ⟨hcats.symm, fun k => ?_⟩
      simp only [getFiles, Option.getD_none]
      exact (hfiles k).symm
    | cons r rest =>
      have hall1 : (((r :: rest).map (fun x => x.categoryId)).all
          (fun id => decide (id ∈ s.selectedCategories))) = false := by
        simp [hcats]
      have h1 : (aCategoriesKey (r :: rest) fileSel s).selectedCategories =
          ((r :: rest).map (fun x => x.categoryId)).toFinset := by
        simp only [aCategoriesKey]
        rw [hall1]
        simp
      have hall2 : (((r :: rest)).map (fun x => x.categoryId)).all
          (fun id => decide
            (id ∈ (aCategoriesKey (r :: rest) fileSel s).selectedCategories)) = true := by
        rw [h1]
        simp only [List.all_eq_true, List.mem_toFinset, decide_eq_true_eq]
        exact fun id hid => hid
      rw [hclear _ hall2]
      refine ⟨hcats.symm, fun k => ?_⟩
      simp only [getFiles, Option.getD_none]
      exact (hfiles k).symm

/-- Witness for the amended C3: from the empty selection, a then a in the
files pane restores both structures. -/
theorem c3_witness :
    (aFilesKey resultsTwo "large-files" (aFilesKey resultsTwo "large-files"
        initialSelection)).selectedCategories =
      initialSelection.selectedCategories ∧
    getFiles (aFilesKey resultsTwo "large-files" (aFilesKey resultsTwo "large-files"
        initialSelection)).selectedFilesByCategory "large-files" =
      getFiles initialSelection.selectedFilesByCategory "large-files" := by
  have h := c3_aKey_roundtrip_empty_or_full.1 resultsTwo "large-files" initialSelection
    ⟨"large-files", itemsTwo⟩ (by decide) (Or.inl ⟨by decide, by decide⟩)
  exact ⟨h.1, h.2 "large-files"⟩

/-- Counterexample to C8, on the concrete collapse session (enter the
files pane, expand the only directory with m, walk the caret down to the
last file row, collapse with h): the h handler leaves the caret where it
was, and at the next render the caret indexes past the shrunk row list —
it references no row at all, and nothing clamps or re-derives it. -/
theorem c8_cex :
    (getPickerState storeCollapsed "large-files").fileCaret =
      (getPickerState storeWalked "large-files").fileCaret ∧
    (getPickerState storeCollapsed "large-files").fileCaret = 7 ∧
    rowsCollapsed.length = 7 ∧
    rowsCollapsed[(getPickerState storeCollapsed "large-files").fileCaret]? = none := by
  decide

/-- C8 as amended: the caret is re-derived only on files-pane entry — the
right-arrow handler keeps a remembered caret that still indexes a
selectable row and otherwise re-derives the caret to the first selectable
row, so the caret is valid on entry whenever any selectable row exists;
an invalid caret left behind by a collapse is tolerated without error
until the pane is re-entered. -/
theorem c8_entry_caret_valid
    (fileSel : Finset CategoryId) (cat : CategoryId) (rows : List GroupedFileDisplay)
    (store : FilePickerStatesStore) (hcat : cat ∈ fileSel)
    (j : Nat) (hj : j < rows.length)
    (hjsel : (rows.get ⟨j, hj⟩).selectable = true) :
    (rightCategoriesKey fileSel cat rows store).2 = true ∧
    (getPickerState (rightCategoriesKey fileSel cat rows store).1 cat).fileCaret <
      rows.length ∧
    (rows[(getPickerState (rightCategoriesKey fileSel cat rows store).1
        cat).fileCaret]?.map (fun r => r.selectable)) = some true := by
  have hlen : 0 < rows.length := Nat.lt_of_le_of_lt (Nat.zero_le j) hj
  have hguard : cat ∈ fileSel ∧ 0 < rows.length := ⟨hcat, hlen⟩
  have hskip := skipDown_spec rows 0 ⟨j, Nat.zero_le j, hj, hjsel⟩
  rcases hskip with ⟨hslt, hssel⟩
  simp only [rightCategoriesKey, if_pos hguard]
  set base := getPickerState store cat with hbase
  by_cases hrem : base.fileCaret < rows.length
  · by_cases hremsel : (rows.get ⟨base.fileCaret, hrem⟩).selectable = true
    · have hini : (if h : base.fileCaret < rows.length then
          if (rows.get ⟨base.fileCaret, h⟩).selectable then base.fileCaret
          else skipDown rows 0
        else skipDown rows 0) = base.fileCaret := by
        rw [dif_pos hrem, if_pos hremsel]
      rw [hini, if_pos hrem, getPickerState_storeSet_same]
      refine ⟨by trivial, hrem, ?_⟩
      rw [List.getElem?_eq_getElem hrem]
      simpa [List.get_eq_getElem] using hremsel
    · have hini : (if h : base.fileCaret < rows.length then
          if (rows.get ⟨base.fileCaret, h⟩).selectable then base.fileCaret
          else skipDown rows 0
        else skipDown rows 0) = skipDown rows 0 := by
        rw [dif_pos hrem, if_neg hremsel]
      rw [hini, if_pos hslt, getPickerState_storeSet_same]
      refine ⟨by trivial, hslt, ?_⟩
      rw [List.getElem?_eq_getElem hslt]
      simpa [List.get_eq_getElem] using hssel
  · have hini : (if h : base.fileCaret < rows.length then
        if (rows.get ⟨base.fileCaret, h⟩).selectable then base.fileCaret
        else skipDown rows 0
      else skipDown rows 0) = skipDown rows 0 := by
      rw [dif_neg hrem]
    rw [hini, if_pos hslt, getPickerState_storeSet_same]
    refine ⟨by trivial, hslt, ?_⟩
    rw [List.getElem?_eq_getElem hslt]
    simpa [List.get_eq_getElem] using hssel

/-- Witness for the amended C8: entering the files pane over the
seven-item fixture lands the caret on the first file row. -/
theorem c8_witness :
    (rightCategoriesKey fileSelLarge "large-files"
        (groupFilesByDirectory itemsSeven [] 5) []).2 = true ∧
    (getPickerState (rightCategoriesKey fileSelLarge "large-files"
        (groupFilesByDirectory itemsSeven [] 5) []).1 "large-files").fileCaret <
      (groupFilesByDirectory itemsSeven [] 5).length ∧
    ((groupFilesByDirectory itemsSeven [] 5)[(getPickerState
        (rightCategoriesKey fileSelLarge "large-files"
          (groupFilesByDirectory itemsSeven [] 5) []).1
        "large-files").fileCaret]?.map (fun r => r.selectable)) = some true :=
  c8_entry_caret_valid fileSelLarge "large-files"
    (groupFilesByDirectory itemsSeven [] 5) [] (by decide) 1 (by decide) (by decide)

/-- C10: the category caret is clamped by up and down to the range from 0
to results.length - 1 without wrapping, so the unguarded indexing of
results at the caret yields a row in every session started with a
non-empty results list, while on the empty results list the very first
render (caret 0) dereferences a missing element. -/
theorem c10_caret_clamp_and_access :
    (∀ (len : Nat) (c : Int), 0 ≤ c → c ≤ (len : Int) - 1 →
      0 ≤ upCategoriesKey c ∧ upCategoriesKey c ≤ (len : Int) - 1 ∧
      0 ≤ downCategoriesKey len c ∧ downCategoriesKey len c ≤ (len : Int) - 1) ∧
    (∀ (results : List ScanResult) (c : Int), 0 ≤ c →
      c ≤ (results.length : Int) - 1 → (jsIndex results c).isSome = true) ∧
    jsIndex [] 0 = none := by
  refine ⟨?_, ?_, rfl⟩
  · intro len c h0 h1
    unfold upCategoriesKey downCategoriesKey
    omega
  · intro results c h0 h1
    unfold jsIndex
    rw [if_neg (by omega)]
    have hlt : c.toNat < results.length := by omega
    simp [hlt]

/-- Witness for C10: the clamps at a concrete caret and a concrete
non-empty results list, where the indexing succeeds. -/
theorem c10_witness :
    (0 ≤ upCategoriesKey 1 ∧ upCategoriesKey 1 ≤ (2 : Int) - 1 ∧
     0 ≤ downCategoriesKey 2 1 ∧ downCategoriesKey 2 1 ≤ (2 : Int) - 1) ∧
    (jsIndex resultsTwo 0).isSome = true :=
  ⟨c10_caret_clamp_and_access.1 2 1 (by decide) (by decide),
   c10_caret_clamp_and_access.2.1 resultsTwo 0 (by decide) (by decide)⟩
